import Mathlib

/-!
Verification of the inja function registry (`include/inja/function_storage.hpp`).

The development shallowly embeds the two components of that header:

* `CallbackContainer`, a manual tagged union over two callable shapes, is modelled
  as a tag field next to an explicit union state, so that agreement between the tag
  and the live union member is a statable property rather than a foregone
  conclusion.  Reading a union member that is not live is undefined behaviour in
  the source and is modelled by `Option`, with `none` for the undefined cases.
* `FunctionStorage`, a map from names to per-arity entry lists with get-or-create
  registration and exact-match lookup, is modelled with association lists whose
  traversal order mirrors the source's iteration order.

The opaque callables are the type parameters `V` (value-returning) and `S`
(streaming); the registry never inspects them.
-/

namespace Inja

namespace Bytecode

/-- Modelled from the spec: the opcode enumeration `Bytecode::Op` is defined in
`bytecode.hpp`, which is not among the provided sources.  The spec describes it as a
finite enumeration owned by an external collaborator and treated by the registry as
an opaque token, with a reserved no-operation sentinel `Nop`; its Scenario A also
names an `Upper` opcode.  Any further opcodes are modelled by an opaque index. -/
inductive Op : Type
  | Nop : Op
  | Upper : Op
  | Other : Nat → Op
deriving DecidableEq

end Bytecode

/-- The tag `CallbackContainer::Type` of the manual tagged union; `uninit` models the
source's empty tag, spelled `Type::_`. -/
inductive CType : Type
  | VALUE
  | STREAMING
  | uninit
deriving DecidableEq

/-- The state of the raw union `CallbackContainer::Callback`: either no member has
been constructed (`dead`, the state after the defaulted union constructor), or
exactly one of the two `std::function` members is a live object. -/
inductive Callback (V S : Type) : Type
  | dead
  | value (f : V)
  | streaming (g : S)
deriving DecidableEq

/-- Model of `CallbackContainer`: a tag field `type` next to a raw union `callback`.  Nothing
in the data type ties the two fields together; their agreement is stated separately
by `CallbackContainer.consistentb`. -/
structure CallbackContainer (V S : Type) : Type where
  type : CType
  callback : Callback V S
deriving DecidableEq

namespace CallbackContainer

variable {V S : Type}

/-- The default constructor `CallbackContainer() : type(Type::_)`: empty tag and no
union member constructed. -/
def mkEmpty : CallbackContainer V S := ⟨CType.uninit, Callback.dead⟩

/-- The converting constructor from a value-returning callback: tag `VALUE` and a
live `value` member. -/
def ofValue (f : V) : CallbackContainer V S := ⟨CType.VALUE, Callback.value f⟩

/-- The converting constructor from a streaming callback: tag `STREAMING` and a live
`streaming` member. -/
def ofStreaming (g : S) : CallbackContainer V S := ⟨CType.STREAMING, Callback.streaming g⟩

/-- The copy constructor: the tag is copied, then the switch on `other.type` copies
the union member the tag claims is live; in the `Type::_` branch no member is
constructed.  Reading a member that is not the live one is undefined behaviour and
yields `none`. -/
def copy (other : CallbackContainer V S) : Option (CallbackContainer V S) :=
  match other.type, other.callback with
  | CType.VALUE, Callback.value f => some ⟨CType.VALUE, Callback.value f⟩
  | CType.VALUE, _ => none
  | CType.STREAMING, Callback.streaming g => some ⟨CType.STREAMING, Callback.streaming g⟩
  | CType.STREAMING, _ => none
  | CType.uninit, _ => some ⟨CType.uninit, Callback.dead⟩

/-- The move constructor: the same switch as the copy constructor, but the live
member is move-constructed.  The payload value is carried over unchanged (the
callables are opaque), so the constructed object is modelled like a copy. -/
def moveCtor (other : CallbackContainer V S) : Option (CallbackContainer V S) :=
  match other.type, other.callback with
  | CType.VALUE, Callback.value f => some ⟨CType.VALUE, Callback.value f⟩
  | CType.VALUE, _ => none
  | CType.STREAMING, Callback.streaming g => some ⟨CType.STREAMING, Callback.streaming g⟩
  | CType.STREAMING, _ => none
  | CType.uninit, _ => some ⟨CType.uninit, Callback.dead⟩

/-- The move assignment operator: `type = other.type;` followed by a switch on
`other.type` that placement-constructs the matching union member over the target's
storage.  In the `Type::_` branch nothing is written to the union, so whichever
member of the target was live before the assignment is still live afterwards. -/
def moveAssign (c other : CallbackContainer V S) : Option (CallbackContainer V S) :=
  match other.type, other.callback with
  | CType.VALUE, Callback.value f => some ⟨CType.VALUE, Callback.value f⟩
  | CType.VALUE, _ => none
  | CType.STREAMING, Callback.streaming g => some ⟨CType.STREAMING, Callback.streaming g⟩
  | CType.STREAMING, _ => none
  | CType.uninit, _ => some ⟨CType.uninit, c.callback⟩

/-- The copy assignment operator, written in the source as
`return *this = CallbackContainer(other);`: copy-construct a temporary from `other`,
then move-assign it into the target. -/
def copyAssign (c other : CallbackContainer V S) : Option (CallbackContainer V S) :=
  (copy other).bind (fun tmp => moveAssign c tmp)

/-- Model of `operator bool`: true iff the tag differs from the empty tag `Type::_`. -/
def is_set (c : CallbackContainer V S) : Bool :=
  match c.type with
  | CType.uninit => false
  | _ => true

/-- Tag/payload consistency: the tag correctly describes which union member, if any,
is live. -/
def consistentb (c : CallbackContainer V S) : Bool :=
  match c.type, c.callback with
  | CType.VALUE, Callback.value _ => true
  | CType.STREAMING, Callback.streaming _ => true
  | CType.uninit, Callback.dead => true
  | _, _ => false

end CallbackContainer

/-- Model of `FunctionStorage::FunctionData`: the entry stored per (name, arity).  Default
member initializers give `op = Nop` and an empty callable slot. -/
structure FunctionData (V S : Type) : Type where
  num_args : Nat
  op : Bytecode.Op
  function : CallbackContainer V S
deriving DecidableEq

/-- The entry produced by `vec.emplace_back(); vec.back().num_args = num_args;` in
`get_or_new`: default fields with the arity filled in. -/
def FunctionData.mkNew {V S : Type} (n : Nat) : FunctionData V S :=
  ⟨n, Bytecode.Op.Nop, CallbackContainer.mkEmpty⟩

/-- Model of `std::map::find` on `m_map`: the association for the name, if any.
It does not modify the map. -/
def mapFind {V S : Type} :
    List (String × List (FunctionData V S)) → String → Option (List (FunctionData V S))
  | [], _ => none
  | (k, v) :: rest, name => if k = name then some v else mapFind rest name

/-- The arity scan shared by `get_or_new` and `get`: the first entry of the list
whose `num_args` equals the requested arity. -/
def findArity {V S : Type} (n : Nat) :
    List (FunctionData V S) → Option (FunctionData V S)
  | [] => none
  | d :: rest => if d.num_args = n then some d else findArity n rest

/-- Model of `get_or_new` restricted to one name's entry list, fused with the single field
write the caller performs through the returned reference: apply `upd` to the first
entry with the given arity, or, if there is none, to a fresh default entry emplaced
at the back of the list. -/
def updateVec {V S : Type} (n : Nat) (upd : FunctionData V S → FunctionData V S) :
    List (FunctionData V S) → List (FunctionData V S)
  | [] => [upd (FunctionData.mkNew n)]
  | d :: rest =>
      if d.num_args = n then upd d :: rest else d :: updateVec n upd rest

/-- Model of `m_map[name]` (`std::map::operator[]`) followed by the in-place rewrite of that
name's entry list: locate the list for `name`, inserting an empty list when the name
is absent, and rewrite it with `updateVec`. -/
def updateMap {V S : Type} (name : String) (n : Nat)
    (upd : FunctionData V S → FunctionData V S) :
    List (String × List (FunctionData V S)) → List (String × List (FunctionData V S))
  | [] => [(name, updateVec n upd [])]
  | (k, v) :: rest =>
      if k = name then (k, updateVec n upd v) :: rest
      else (k, v) :: updateMap name n upd rest

/-- Model of `data.function = function` for a value-returning callback: the callback converts
to a temporary `CallbackContainer`, which is then assigned into the entry's slot. -/
def assignValue {V S : Type} (old : CallbackContainer V S) (f : V) : CallbackContainer V S :=
  (old.moveAssign (CallbackContainer.ofValue f)).getD old

/-- Model of `data.function = function` for a streaming callback. -/
def assignStreaming {V S : Type} (old : CallbackContainer V S) (g : S) : CallbackContainer V S :=
  (old.moveAssign (CallbackContainer.ofStreaming g)).getD old

/-- Model of `FunctionStorage`: the registry, owning the map from names to per-arity entry
lists. -/
structure FunctionStorage (V S : Type) : Type where
  m_map : List (String × List (FunctionData V S))
deriving DecidableEq

namespace FunctionStorage

variable {V S : Type}

/-- The registry as default-constructed: an empty map. -/
def empty : FunctionStorage V S := ⟨[]⟩

/-- Model of `add_builtin`: get-or-create the entry for (name, arity) and set its `op`
field. -/
def add_builtin (σ : FunctionStorage V S) (name : String) (n : Nat)
    (op : Bytecode.Op) : FunctionStorage V S :=
  ⟨updateMap name n (fun d => { d with op := op }) σ.m_map⟩

/-- Model of `add_callback` instantiated at a value-returning callback: get-or-create the
entry for (name, arity) and assign its `function` slot. -/
def add_callback_value (σ : FunctionStorage V S) (name : String) (n : Nat)
    (f : V) : FunctionStorage V S :=
  ⟨updateMap name n (fun d => { d with function := assignValue d.function f }) σ.m_map⟩

/-- Model of `add_callback` instantiated at a streaming callback. -/
def add_callback_streaming (σ : FunctionStorage V S) (name : String) (n : Nat)
    (g : S) : FunctionStorage V S :=
  ⟨updateMap name n (fun d => { d with function := assignStreaming d.function g }) σ.m_map⟩

/-- Model of `FunctionStorage::get`: `m_map.find` for the name, then the arity scan; `none`
models the null pointer. -/
def get (σ : FunctionStorage V S) (name : String) (n : Nat) :
    Option (FunctionData V S) :=
  match mapFind σ.m_map name with
  | none => none
  | some vec => findArity n vec

/-- Model of `find_builtin`: the stored opcode of the entry, or the `Nop` sentinel when the
key is absent. -/
def find_builtin (σ : FunctionStorage V S) (name : String) (n : Nat) : Bytecode.Op :=
  match σ.get name n with
  | some d => d.op
  | none => Bytecode.Op.Nop

/-- Model of `find_callback`: a copy of the entry's callable slot (`return ptr->function;`
invokes the copy constructor), or a default-constructed empty container when the key
is absent. -/
def find_callback (σ : FunctionStorage V S) (name : String) (n : Nat) :
    Option (CallbackContainer V S) :=
  match σ.get name n with
  | some d => d.function.copy
  | none => some CallbackContainer.mkEmpty

/-- Observer used in proofs: the callable slot stored in the entry for (name,
arity), an absent key observing as the empty container. -/
def storedFunction (σ : FunctionStorage V S) (name : String) (n : Nat) :
    CallbackContainer V S :=
  match σ.get name n with
  | some d => d.function
  | none => CallbackContainer.mkEmpty

end FunctionStorage

/-- A registration event: one call to `add_builtin` or to one of the two
instantiations of `add_callback`. -/
inductive RegOp (V S : Type) : Type
  | addBuiltin (name : String) (n : Nat) (op : Bytecode.Op)
  | addCallbackValue (name : String) (n : Nat) (f : V)
  | addCallbackStreaming (name : String) (n : Nat) (g : S)
deriving DecidableEq

namespace RegOp

variable {V S : Type}

/-- The name component of an event's key. -/
def name : RegOp V S → String
  | addBuiltin m _ _ => m
  | addCallbackValue m _ _ => m
  | addCallbackStreaming m _ _ => m

/-- The arity component of an event's key. -/
def arity : RegOp V S → Nat
  | addBuiltin _ k _ => k
  | addCallbackValue _ k _ => k
  | addCallbackStreaming _ k _ => k

/-- Whether the event is an `add_builtin` call. -/
def isBuiltin : RegOp V S → Bool
  | addBuiltin _ _ _ => true
  | _ => false

end RegOp

/-- Execute one registration event against the registry. -/
def applyOp {V S : Type} (σ : FunctionStorage V S) : RegOp V S → FunctionStorage V S
  | RegOp.addBuiltin name n op => σ.add_builtin name n op
  | RegOp.addCallbackValue name n f => σ.add_callback_value name n f
  | RegOp.addCallbackStreaming name n g => σ.add_callback_streaming name n g

/-- Execute a sequence of registration events, oldest first. -/
def runOps {V S : Type} (σ : FunctionStorage V S) (h : List (RegOp V S)) :
    FunctionStorage V S :=
  h.foldl applyOp σ

/-- Spec-side description: the opcode of the most recent `add_builtin` event for the
exact (name, arity) key, if any. -/
def lastRegisteredBuiltin {V S : Type} (name : String) (n : Nat)
    (h : List (RegOp V S)) : Option Bytecode.Op :=
  h.foldl
    (fun acc e =>
      match e with
      | RegOp.addBuiltin m k o => if m = name ∧ k = n then some o else acc
      | _ => acc)
    none

/-- Spec-side description: the callback of the most recent `add_callback` event for
the exact (name, arity) key, if any, tagged with its shape. -/
def lastRegisteredCallback {V S : Type} (name : String) (n : Nat)
    (h : List (RegOp V S)) : Option (V ⊕ S) :=
  h.foldl
    (fun acc e =>
      match e with
      | RegOp.addCallbackValue m k f => if m = name ∧ k = n then some (Sum.inl f) else acc
      | RegOp.addCallbackStreaming m k g => if m = name ∧ k = n then some (Sum.inr g) else acc
      | _ => acc)
    none

/-- The container a callback registration, tagged with its shape, installs. -/
def ccOfSum {V S : Type} : V ⊕ S → CallbackContainer V S
  | Sum.inl f => CallbackContainer.ofValue f
  | Sum.inr g => CallbackContainer.ofStreaming g

/-- The registry invariant stated by the spec's data model: within each name's entry
list, entries are unique by arity. -/
def arityUnique {V S : Type} (σ : FunctionStorage V S) : Prop :=
  ∀ p ∈ σ.m_map, List.Pairwise (fun d₁ d₂ => d₁.num_args ≠ d₂.num_args) p.2

/-- Model of `FunctionStorage::get`, statement by statement with the registry state threaded
through explicitly: the method is declared `const` and its only map operation is
`m_map.find`, so every step hands the registry on unchanged; in particular the
absent-name and absent-arity paths return the null marker without touching the
map. -/
def FunctionStorage.get_st {V S : Type} (σ : FunctionStorage V S) (name : String)
    (n : Nat) : Option (FunctionData V S) × FunctionStorage V S :=
  match mapFind σ.m_map name with
  | none => (none, σ)
  | some vec => (findArity n vec, σ)

/-- Model of `find_builtin` with the registry state threaded through explicitly. -/
def FunctionStorage.find_builtin_st {V S : Type} (σ : FunctionStorage V S)
    (name : String) (n : Nat) : Bytecode.Op × FunctionStorage V S :=
  match σ.get_st name n with
  | (some d, σ2) => (d.op, σ2)
  | (none, σ2) => (Bytecode.Op.Nop, σ2)

/-- Model of `find_callback` with the registry state threaded through explicitly. -/
def FunctionStorage.find_callback_st {V S : Type} (σ : FunctionStorage V S)
    (name : String) (n : Nat) :
    Option (CallbackContainer V S) × FunctionStorage V S :=
  match σ.get_st name n with
  | (some d, σ2) => (d.function.copy, σ2)
  | (none, σ2) => (some CallbackContainer.mkEmpty, σ2)

section UpdateLemmas

variable {V S : Type}

/-- Scanning the rewritten entry list for the rewritten arity finds the updated
entry: the previously stored one if the arity was present, the fresh default entry
otherwise. -/
theorem findArity_updateVec_self (n : Nat) (upd : FunctionData V S → FunctionData V S)
    (hupd : ∀ d, (upd d).num_args = d.num_args) (vec : List (FunctionData V S)) :
    findArity n (updateVec n upd vec)
      = some (upd ((findArity n vec).getD (FunctionData.mkNew n))) := by
  induction vec with
  | nil => simp [updateVec, findArity, hupd, FunctionData.mkNew]
  | cons d rest ih =>
      by_cases h : d.num_args = n
      · simp [updateVec, findArity, h, hupd]
      · simp [updateVec, findArity, h, hupd, ih]

/-- Rewriting one arity's entry leaves the scan for any other arity unchanged. -/
theorem findArity_updateVec_ne (n m : Nat) (hne : m ≠ n)
    (upd : FunctionData V S → FunctionData V S)
    (hupd : ∀ d, (upd d).num_args = d.num_args) (vec : List (FunctionData V S)) :
    findArity m (updateVec n upd vec) = findArity m vec := by
  induction vec with
  | nil => simp [updateVec, findArity, hupd, FunctionData.mkNew, Ne.symm hne]
  | cons d rest ih =>
      by_cases h : d.num_args = n
      · by_cases hm : d.num_args = m
        · exact absurd (hm.symm.trans h) hne
        · simp [updateVec, findArity, h, hm, hupd, Ne.symm hne]
      · by_cases hm : d.num_args = m
        · simp [updateVec, findArity, h, hm, hne]
        · simp [updateVec, findArity, h, hm, ih]

/-- Looking up the rewritten name finds the rewritten entry list. -/
theorem mapFind_updateMap_self (name : String) (n : Nat)
    (upd : FunctionData V S → FunctionData V S)
    (m : List (String × List (FunctionData V S))) :
    mapFind (updateMap name n upd m) name
      = some (updateVec n upd ((mapFind m name).getD [])) := by
  induction m with
  | nil => simp [updateMap, mapFind]
  | cons p rest ih =>
      obtain ⟨k, v⟩ := p
      by_cases h : k = name
      · simp [updateMap, mapFind, h]
      · simp [updateMap, mapFind, h, ih]

/-- Rewriting one name's entry list leaves the lookup of any other name
unchanged. -/
theorem mapFind_updateMap_ne (name other : String) (hne : other ≠ name) (n : Nat)
    (upd : FunctionData V S → FunctionData V S)
    (m : List (String × List (FunctionData V S))) :
    mapFind (updateMap name n upd m) other = mapFind m other := by
  induction m with
  | nil => simp [updateMap, mapFind, Ne.symm hne]
  | cons p rest ih =>
      obtain ⟨k, v⟩ := p
      by_cases h : k = name
      · subst h
        simp [updateMap, mapFind, Ne.symm hne]
      · by_cases hk : k = other
        · simp [updateMap, mapFind, h, hk, hne]
        · simp [updateMap, mapFind, h, hk, ih]

/-- Fact about `get` after a registration for the same (name, arity) key returns the updated
entry. -/
theorem get_updateMap_self (σ : FunctionStorage V S) (name : String) (n : Nat)
    (upd : FunctionData V S → FunctionData V S)
    (hupd : ∀ d, (upd d).num_args = d.num_args) :
    (FunctionStorage.mk (updateMap name n upd σ.m_map)).get name n
      = some (upd ((σ.get name n).getD (FunctionData.mkNew n))) := by
  unfold FunctionStorage.get
  rw [mapFind_updateMap_self]
  cases hm : mapFind σ.m_map name with
  | none => simp [findArity_updateVec_self n upd hupd, findArity, hupd, FunctionData.mkNew]
  | some vec => simp [findArity_updateVec_self n upd hupd]

/-- Fact about `get` after a registration for a different (name, arity) key: it is
unchanged. -/
theorem get_updateMap_ne (σ : FunctionStorage V S) (name : String) (n : Nat)
    (other : String) (m : Nat) (upd : FunctionData V S → FunctionData V S)
    (hupd : ∀ d, (upd d).num_args = d.num_args)
    (hne : other ≠ name ∨ m ≠ n) :
    (FunctionStorage.mk (updateMap name n upd σ.m_map)).get other m
      = σ.get other m := by
  by_cases hname : other = name
  · subst hname
    have hm : m ≠ n := by
      rcases hne with hne | hne
      · exact absurd rfl hne
      · exact hne
    unfold FunctionStorage.get
    rw [mapFind_updateMap_self]
    cases hmf : mapFind σ.m_map other with
    | none =>
        simp [findArity_updateVec_ne n m hm upd hupd, findArity, hupd,
          FunctionData.mkNew, Ne.symm hm]
    | some vec => simp [findArity_updateVec_ne n m hm upd hupd]
  · unfold FunctionStorage.get
    rw [mapFind_updateMap_ne name other hname n upd σ.m_map]

end UpdateLemmas

section StepLemmas

variable {V S : Type}

/-- Assigning a value callback into an entry's slot installs a freshly constructed
container, whatever the slot held before. -/
theorem assignValue_eq (old : CallbackContainer V S) (f : V) :
    assignValue old f = CallbackContainer.ofValue f := rfl

/-- Assigning a streaming callback into an entry's slot installs a freshly
constructed container, whatever the slot held before. -/
theorem assignStreaming_eq (old : CallbackContainer V S) (g : S) :
    assignStreaming old g = CallbackContainer.ofStreaming g := rfl

/-- Fact that `find_callback` is the copy of the stored callable slot (an absent key observing
as the empty container, whose copy is itself). -/
theorem find_callback_eq_copy (σ : FunctionStorage V S) (name : String) (n : Nat) :
    σ.find_callback name n = (σ.storedFunction name n).copy := by
  unfold FunctionStorage.find_callback FunctionStorage.storedFunction
  cases σ.get name n <;> rfl

/-- A registration event for one key leaves `get` for every other key unchanged. -/
theorem get_applyOp_ne (σ : FunctionStorage V S) (e : RegOp V S) (name : String)
    (n : Nat) (hne : e.name ≠ name ∨ e.arity ≠ n) :
    (applyOp σ e).get name n = σ.get name n := by
  cases e with
  | addBuiltin m k o =>
      simp only [RegOp.name, RegOp.arity] at hne
      exact get_updateMap_ne σ m k name n _ (fun d => rfl) (hne.imp Ne.symm Ne.symm)
  | addCallbackValue m k f =>
      simp only [RegOp.name, RegOp.arity] at hne
      exact get_updateMap_ne σ m k name n _ (fun d => rfl) (hne.imp Ne.symm Ne.symm)
  | addCallbackStreaming m k g =>
      simp only [RegOp.name, RegOp.arity] at hne
      exact get_updateMap_ne σ m k name n _ (fun d => rfl) (hne.imp Ne.symm Ne.symm)

/-- Fact that `add_builtin` overwrites the stored opcode for its own key. -/
theorem find_builtin_add_builtin_self (σ : FunctionStorage V S) (name : String)
    (n : Nat) (op : Bytecode.Op) :
    (σ.add_builtin name n op).find_builtin name n = op := by
  unfold FunctionStorage.find_builtin FunctionStorage.add_builtin
  rw [get_updateMap_self σ name n (fun d => { d with op := op }) (fun d => rfl)]

/-- Fact that `add_callback` (value shape) leaves the stored opcode of every key unchanged:
for its own key it writes only the callable slot, the fresh entry it may create
carries the default `Nop`, and other keys are untouched. -/
theorem find_builtin_add_callback_value (σ : FunctionStorage V S) (name : String)
    (n : Nat) (f : V) (name' : String) (n' : Nat) :
    (σ.add_callback_value name n f).find_builtin name' n'
      = σ.find_builtin name' n' := by
  by_cases h : name' = name ∧ n' = n
  · obtain ⟨h1, h2⟩ := h
    subst h1; subst h2
    unfold FunctionStorage.find_builtin FunctionStorage.add_callback_value
    rw [get_updateMap_self σ name' n'
      (fun d => { d with function := assignValue d.function f }) (fun d => rfl)]
    cases σ.get name' n' <;> rfl
  · rw [Decidable.not_and_iff_or_not] at h
    unfold FunctionStorage.find_builtin FunctionStorage.add_callback_value
    rw [get_updateMap_ne σ name n name' n'
      (fun d => { d with function := assignValue d.function f }) (fun d => rfl) h]

/-- Fact that `add_callback` (streaming shape) leaves the stored opcode of every key
unchanged. -/
theorem find_builtin_add_callback_streaming (σ : FunctionStorage V S) (name : String)
    (n : Nat) (g : S) (name' : String) (n' : Nat) :
    (σ.add_callback_streaming name n g).find_builtin name' n'
      = σ.find_builtin name' n' := by
  by_cases h : name' = name ∧ n' = n
  · obtain ⟨h1, h2⟩ := h
    subst h1; subst h2
    unfold FunctionStorage.find_builtin FunctionStorage.add_callback_streaming
    rw [get_updateMap_self σ name' n'
      (fun d => { d with function := assignStreaming d.function g }) (fun d => rfl)]
    cases σ.get name' n' <;> rfl
  · rw [Decidable.not_and_iff_or_not] at h
    unfold FunctionStorage.find_builtin FunctionStorage.add_callback_streaming
    rw [get_updateMap_ne σ name n name' n'
      (fun d => { d with function := assignStreaming d.function g }) (fun d => rfl) h]

/-- Fact that `add_builtin` leaves the stored callable slot of every key unchanged: for its
own key it writes only the opcode, the fresh entry it may create carries an empty
slot, and other keys are untouched. -/
theorem storedFunction_add_builtin (σ : FunctionStorage V S) (name : String)
    (n : Nat) (op : Bytecode.Op) (name' : String) (n' : Nat) :
    (σ.add_builtin name n op).storedFunction name' n'
      = σ.storedFunction name' n' := by
  by_cases h : name' = name ∧ n' = n
  · obtain ⟨h1, h2⟩ := h
    subst h1; subst h2
    unfold FunctionStorage.storedFunction FunctionStorage.add_builtin
    rw [get_updateMap_self σ name' n' (fun d => { d with op := op }) (fun d => rfl)]
    cases σ.get name' n' <;> rfl
  · rw [Decidable.not_and_iff_or_not] at h
    unfold FunctionStorage.storedFunction FunctionStorage.add_builtin
    rw [get_updateMap_ne σ name n name' n'
      (fun d => { d with op := op }) (fun d => rfl) h]

/-- Fact that `add_callback` (value shape) installs the new callable in its own
key's slot. -/
theorem storedFunction_add_callback_value_self (σ : FunctionStorage V S)
    (name : String) (n : Nat) (f : V) :
    (σ.add_callback_value name n f).storedFunction name n
      = CallbackContainer.ofValue f := by
  unfold FunctionStorage.storedFunction FunctionStorage.add_callback_value
  rw [get_updateMap_self σ name n
    (fun d => { d with function := assignValue d.function f }) (fun d => rfl)]
  rfl

/-- Fact that `add_callback` (streaming shape) installs the new callable in its own key's
slot. -/
theorem storedFunction_add_callback_streaming_self (σ : FunctionStorage V S)
    (name : String) (n : Nat) (g : S) :
    (σ.add_callback_streaming name n g).storedFunction name n
      = CallbackContainer.ofStreaming g := by
  unfold FunctionStorage.storedFunction FunctionStorage.add_callback_streaming
  rw [get_updateMap_self σ name n
    (fun d => { d with function := assignStreaming d.function g }) (fun d => rfl)]
  rfl

/-- A registration event for one key leaves `find_builtin` for every other key
unchanged. -/
theorem find_builtin_applyOp_ne (σ : FunctionStorage V S) (e : RegOp V S)
    (name : String) (n : Nat) (hne : e.name ≠ name ∨ e.arity ≠ n) :
    (applyOp σ e).find_builtin name n = σ.find_builtin name n := by
  unfold FunctionStorage.find_builtin
  rw [get_applyOp_ne σ e name n hne]

/-- A registration event for one key leaves the stored callable slot of every other
key unchanged. -/
theorem storedFunction_applyOp_ne (σ : FunctionStorage V S) (e : RegOp V S)
    (name : String) (n : Nat) (hne : e.name ≠ name ∨ e.arity ≠ n) :
    (applyOp σ e).storedFunction name n = σ.storedFunction name n := by
  unfold FunctionStorage.storedFunction
  rw [get_applyOp_ne σ e name n hne]

end StepLemmas

section HistoryLemmas

variable {V S : Type}

/-- Running a history extended by one event is running the history, then the
event. -/
theorem runOps_append (σ : FunctionStorage V S) (l : List (RegOp V S)) (e : RegOp V S) :
    runOps σ (l ++ [e]) = applyOp (runOps σ l) e := by
  simp [runOps, List.foldl_append]

/-- Appending an `add_builtin` event updates the most-recent builtin exactly when
the key matches. -/
theorem lastRegisteredBuiltin_append (name : String) (n : Nat)
    (l : List (RegOp V S)) (e : RegOp V S) :
    lastRegisteredBuiltin name n (l ++ [e])
      = match e with
        | RegOp.addBuiltin m k o =>
            if m = name ∧ k = n then some o else lastRegisteredBuiltin name n l
        | _ => lastRegisteredBuiltin name n l := by
  cases e <;> simp [lastRegisteredBuiltin, List.foldl_append]

/-- Appending an `add_callback` event updates the most-recent callback exactly when
the key matches. -/
theorem lastRegisteredCallback_append (name : String) (n : Nat)
    (l : List (RegOp V S)) (e : RegOp V S) :
    lastRegisteredCallback name n (l ++ [e])
      = match e with
        | RegOp.addCallbackValue m k f =>
            if m = name ∧ k = n then some (Sum.inl f) else lastRegisteredCallback name n l
        | RegOp.addCallbackStreaming m k g =>
            if m = name ∧ k = n then some (Sum.inr g) else lastRegisteredCallback name n l
        | _ => lastRegisteredCallback name n l := by
  cases e <;> simp [lastRegisteredCallback, List.foldl_append]

/-- Characterization of `find_builtin` after a history: the opcode of the most
recent `add_builtin` for the key, falling back to the initial registry when the key
never saw an `add_builtin`. -/
theorem find_builtin_runOps (h : List (RegOp V S)) (σ : FunctionStorage V S)
    (name : String) (n : Nat) :
    (runOps σ h).find_builtin name n
      = (lastRegisteredBuiltin name n h).getD (σ.find_builtin name n) := by
  induction h using List.reverseRecOn with
  | nil => rfl
  | append_singleton l e ih =>
      rw [runOps_append, lastRegisteredBuiltin_append]
      cases e with
      | addBuiltin m k o =>
          by_cases hk : m = name ∧ k = n
          · obtain ⟨h1, h2⟩ := hk
            subst h1; subst h2
            simp [applyOp, find_builtin_add_builtin_self]
          · have hne := hk
            rw [Decidable.not_and_iff_or_not] at hne
            have h2 := find_builtin_applyOp_ne (runOps σ l) (RegOp.addBuiltin m k o)
              name n hne
            simp only [applyOp] at h2
            simp [applyOp, h2, hk, ih]
      | addCallbackValue m k f =>
          simp [applyOp, find_builtin_add_callback_value, ih]
      | addCallbackStreaming m k g =>
          simp [applyOp, find_builtin_add_callback_streaming, ih]

/-- Characterization of the stored callable slot after a history: the container
installed by the most recent `add_callback` for the key, falling back to the initial
registry when the key never saw an `add_callback`. -/
theorem storedFunction_runOps (h : List (RegOp V S)) (σ : FunctionStorage V S)
    (name : String) (n : Nat) :
    (runOps σ h).storedFunction name n
      = ((lastRegisteredCallback name n h).map ccOfSum).getD
          (σ.storedFunction name n) := by
  induction h using List.reverseRecOn with
  | nil => rfl
  | append_singleton l e ih =>
      rw [runOps_append, lastRegisteredCallback_append]
      cases e with
      | addBuiltin m k o =>
          simp [applyOp, storedFunction_add_builtin, ih]
      | addCallbackValue m k f =>
          by_cases hk : m = name ∧ k = n
          · obtain ⟨h1, h2⟩ := hk
            subst h1; subst h2
            simp [applyOp, storedFunction_add_callback_value_self, ccOfSum]
          · have hne := hk
            rw [Decidable.not_and_iff_or_not] at hne
            have h2 := storedFunction_applyOp_ne (runOps σ l)
              (RegOp.addCallbackValue m k f) name n hne
            simp only [applyOp] at h2
            simp [applyOp, h2, hk, ih]
      | addCallbackStreaming m k g =>
          by_cases hk : m = name ∧ k = n
          · obtain ⟨h1, h2⟩ := hk
            subst h1; subst h2
            simp [applyOp, storedFunction_add_callback_streaming_self, ccOfSum]
          · have hne := hk
            rw [Decidable.not_and_iff_or_not] at hne
            have h2 := storedFunction_applyOp_ne (runOps σ l)
              (RegOp.addCallbackStreaming m k g) name n hne
            simp only [applyOp] at h2
            simp [applyOp, h2, hk, ih]

/-- A history with no `add_builtin` event for the key registers no builtin for
it. -/
theorem lastRegisteredBuiltin_eq_none (name : String) (n : Nat)
    (h : List (RegOp V S))
    (hh : ∀ e ∈ h, e.isBuiltin = true → ¬(e.name = name ∧ e.arity = n)) :
    lastRegisteredBuiltin name n h = none := by
  induction h using List.reverseRecOn with
  | nil => rfl
  | append_singleton l e ih =>
      rw [lastRegisteredBuiltin_append]
      cases e with
      | addBuiltin m k o =>
          have h1 : ¬(m = name ∧ k = n) := hh (RegOp.addBuiltin m k o) (by simp) rfl
          have h2 := ih fun e he hb => hh e (by simp [he]) hb
          simp [h1, h2]
      | addCallbackValue m k f =>
          exact ih fun e he hb => hh e (by simp [he]) hb
      | addCallbackStreaming m k g =>
          exact ih fun e he hb => hh e (by simp [he]) hb

/-- A history with no `add_callback` event for the key registers no callback for
it. -/
theorem lastRegisteredCallback_eq_none (name : String) (n : Nat)
    (h : List (RegOp V S))
    (hh : ∀ e ∈ h, e.isBuiltin = false → ¬(e.name = name ∧ e.arity = n)) :
    lastRegisteredCallback name n h = none := by
  induction h using List.reverseRecOn with
  | nil => rfl
  | append_singleton l e ih =>
      rw [lastRegisteredCallback_append]
      cases e with
      | addBuiltin m k o =>
          exact ih fun e he hb => hh e (by simp [he]) hb
      | addCallbackValue m k f =>
          have h1 : ¬(m = name ∧ k = n) := hh (RegOp.addCallbackValue m k f) (by simp) rfl
          have h2 := ih fun e he hb => hh e (by simp [he]) hb
          simp [h1, h2]
      | addCallbackStreaming m k g =>
          have h1 : ¬(m = name ∧ k = n) := hh (RegOp.addCallbackStreaming m k g) (by simp) rfl
          have h2 := ih fun e he hb => hh e (by simp [he]) hb
          simp [h1, h2]

end HistoryLemmas

section InvariantLemmas

variable {V S : Type}

/-- Every entry of a rewritten list carries either the rewritten arity or an arity
already present in the original list. -/
theorem num_args_of_mem_updateVec (n : Nat) (upd : FunctionData V S → FunctionData V S)
    (hupd : ∀ d, (upd d).num_args = d.num_args) (vec : List (FunctionData V S))
    (d : FunctionData V S) (hd : d ∈ updateVec n upd vec) :
    d.num_args = n ∨ ∃ d₀ ∈ vec, d.num_args = d₀.num_args := by
  induction vec with
  | nil =>
      simp only [updateVec, List.mem_singleton] at hd
      subst hd
      left
      rw [hupd]
      rfl
  | cons a rest ih =>
      by_cases h : a.num_args = n
      · simp only [updateVec, if_pos h, List.mem_cons] at hd
        rcases hd with hd | hd
        · subst hd
          left
          rw [hupd]
          exact h
        · right
          exact ⟨d, List.mem_cons_of_mem a hd, rfl⟩
      · simp only [updateVec, if_neg h, List.mem_cons] at hd
        rcases hd with hd | hd
        · subst hd
          right
          exact ⟨d, List.mem_cons_self d rest, rfl⟩
        · rcases ih hd with h1 | ⟨d₀, hd₀, h2⟩
          · exact Or.inl h1
          · exact Or.inr ⟨d₀, List.mem_cons_of_mem a hd₀, h2⟩

/-- A get-or-create rewrite of one arity preserves uniqueness of arities within the
list. -/
theorem pairwise_updateVec (n : Nat) (upd : FunctionData V S → FunctionData V S)
    (hupd : ∀ d, (upd d).num_args = d.num_args) (vec : List (FunctionData V S))
    (hp : List.Pairwise (fun d₁ d₂ => d₁.num_args ≠ d₂.num_args) vec) :
    List.Pairwise (fun d₁ d₂ => d₁.num_args ≠ d₂.num_args) (updateVec n upd vec) := by
  induction vec with
  | nil => simp [updateVec]
  | cons a rest ih =>
      rw [List.pairwise_cons] at hp
      obtain ⟨ha, hrest⟩ := hp
      by_cases h : a.num_args = n
      · simp only [updateVec, if_pos h]
        rw [List.pairwise_cons]
        refine ⟨fun e he => ?_, hrest⟩
        rw [hupd]
        exact ha e he
      · simp only [updateVec, if_neg h]
        rw [List.pairwise_cons]
        refine ⟨fun e he => ?_, ih hrest⟩
        rcases num_args_of_mem_updateVec n upd hupd rest e he with h1 | ⟨d₀, hd₀, h2⟩
        · rw [h1]
          exact h
        · rw [h2]
          exact ha d₀ hd₀

/-- Every association of a rewritten map is either an untouched association of the
original map, an association whose entry list was rewritten, or the fresh
association created for an absent name. -/
theorem mem_updateMap (name : String) (n : Nat)
    (upd : FunctionData V S → FunctionData V S)
    (m : List (String × List (FunctionData V S)))
    (p : String × List (FunctionData V S)) (hp : p ∈ updateMap name n upd m) :
    p ∈ m ∨ (∃ q ∈ m, p = (q.1, updateVec n upd q.2))
      ∨ p = (name, updateVec n upd []) := by
  induction m with
  | nil =>
      simp only [updateMap, List.mem_singleton] at hp
      exact Or.inr (Or.inr hp)
  | cons q rest ih =>
      obtain ⟨k, v⟩ := q
      by_cases h : k = name
      · simp only [updateMap, if_pos h, List.mem_cons] at hp
        rcases hp with hp | hp
        · exact Or.inr (Or.inl ⟨(k, v), List.mem_cons_self (k, v) rest, hp⟩)
        · exact Or.inl (List.mem_cons_of_mem (k, v) hp)
      · simp only [updateMap, if_neg h, List.mem_cons] at hp
        rcases hp with hp | hp
        · exact Or.inl (hp ▸ List.mem_cons_self (k, v) rest)
        · rcases ih hp with h1 | ⟨q₀, hq₀, h2⟩ | h3
          · exact Or.inl (List.mem_cons_of_mem (k, v) h1)
          · exact Or.inr (Or.inl ⟨q₀, List.mem_cons_of_mem (k, v) hq₀, h2⟩)
          · exact Or.inr (Or.inr h3)

/-- A get-or-create rewrite of one key preserves the registry invariant. -/
theorem arityUnique_updateMap (name : String) (n : Nat)
    (upd : FunctionData V S → FunctionData V S)
    (hupd : ∀ d, (upd d).num_args = d.num_args) (σ : FunctionStorage V S)
    (hσ : arityUnique σ) :
    arityUnique (FunctionStorage.mk (updateMap name n upd σ.m_map)) := by
  intro p hp
  rcases mem_updateMap name n upd σ.m_map p hp with h1 | ⟨q, hq, h2⟩ | h3
  · exact hσ p h1
  · rw [h2]
    exact pairwise_updateVec n upd hupd q.2 (hσ q hq)
  · rw [h3]
    exact pairwise_updateVec n upd hupd [] (by simp)

/-- Every single registration preserves the registry invariant. -/
theorem arityUnique_applyOp (σ : FunctionStorage V S) (e : RegOp V S)
    (hσ : arityUnique σ) : arityUnique (applyOp σ e) := by
  cases e with
  | addBuiltin m k o =>
      exact arityUnique_updateMap m k (fun d => { d with op := o }) (fun d => rfl) σ hσ
  | addCallbackValue m k f =>
      exact arityUnique_updateMap m k
        (fun d => { d with function := assignValue d.function f }) (fun d => rfl) σ hσ
  | addCallbackStreaming m k g =>
      exact arityUnique_updateMap m k
        (fun d => { d with function := assignStreaming d.function g }) (fun d => rfl) σ hσ

/-- Running any history from an invariant-satisfying registry preserves the
invariant. -/
theorem arityUnique_runOps (h : List (RegOp V S)) (σ : FunctionStorage V S)
    (hσ : arityUnique σ) : arityUnique (runOps σ h) := by
  induction h generalizing σ with
  | nil => exact hσ
  | cons e t ih => exact ih (applyOp σ e) (arityUnique_applyOp σ e hσ)

/-- Fusing two get-or-create rewrites of the same arity into one, list level. -/
theorem updateVec_updateVec (n : Nat) (u u' : FunctionData V S → FunctionData V S)
    (hu : ∀ d, (u d).num_args = d.num_args) (vec : List (FunctionData V S)) :
    updateVec n u' (updateVec n u vec) = updateVec n (fun d => u' (u d)) vec := by
  induction vec with
  | nil => simp [updateVec, hu, FunctionData.mkNew]
  | cons d rest ih =>
      by_cases h : d.num_args = n
      · have h2 : (u d).num_args = n := by rw [hu]; exact h
        simp [updateVec, h, h2]
      · simp [updateVec, h, ih]

/-- Fusing two get-or-create rewrites of the same key into one, map level. -/
theorem updateMap_updateMap (name : String) (n : Nat)
    (u u' : FunctionData V S → FunctionData V S)
    (hu : ∀ d, (u d).num_args = d.num_args)
    (m : List (String × List (FunctionData V S))) :
    updateMap name n u' (updateMap name n u m)
      = updateMap name n (fun d => u' (u d)) m := by
  induction m with
  | nil => simp [updateMap, updateVec_updateVec n u u' hu]
  | cons q rest ih =>
      obtain ⟨k, v⟩ := q
      by_cases h : k = name
      · simp [updateMap, h, updateVec_updateVec n u u' hu]
      · simp [updateMap, h, ih]

end InvariantLemmas

section CopyLemmas

variable {V S : Type}

/-- The copy constructor only ever produces tag-consistent containers, so copying a
container that itself came out of the copy constructor reproduces it exactly. -/
theorem copy_of_copy (x c : CallbackContainer V S) (hx : x.copy = some c) :
    c.copy = some c := by
  obtain ⟨t, cb⟩ := x
  cases t <;> cases cb <;> simp [CallbackContainer.copy] at hx <;> subst hx <;> rfl

end CopyLemmas

/-- C1: Last-write-wins resolution: over any registration history run from a fresh
registry, when the key (name, arity) has seen at least one `add_builtin`,
`find_builtin` returns the opcode of the most recent one, and when it has seen at
least one `add_callback`, `find_callback` returns a variant holding the most
recently registered callback (with its shape's tag). -/
theorem claim_C1_last_write_wins {V S : Type} (h : List (RegOp V S))
    (name : String) (n : Nat) :
    (∀ op : Bytecode.Op, lastRegisteredBuiltin name n h = some op →
        (runOps FunctionStorage.empty h).find_builtin name n = op)
    ∧ (∀ fg : V ⊕ S, lastRegisteredCallback name n h = some fg →
        (runOps FunctionStorage.empty h).find_callback name n = some (ccOfSum fg)) := by
  constructor
  · intro op hop
    rw [find_builtin_runOps, hop]
    rfl
  · intro fg hfg
    rw [find_callback_eq_copy, storedFunction_runOps, hfg]
    cases fg <;> rfl

/-- Witness for C1: a concrete history with two overwrites on the key ("f", 1). -/
theorem claim_C1_last_write_wins_witness :
    (runOps FunctionStorage.empty
        [RegOp.addBuiltin "f" 1 (Bytecode.Op.Other 1),
         RegOp.addCallbackValue "f" 1 (3 : Nat),
         RegOp.addBuiltin "f" 1 Bytecode.Op.Upper,
         RegOp.addCallbackStreaming "g" 2 (5 : Nat)]).find_builtin "f" 1
      = Bytecode.Op.Upper
    ∧ (runOps FunctionStorage.empty
        [RegOp.addBuiltin "f" 1 (Bytecode.Op.Other 1),
         RegOp.addCallbackValue "f" 1 (3 : Nat),
         RegOp.addBuiltin "f" 1 Bytecode.Op.Upper,
         RegOp.addCallbackStreaming "g" 2 (5 : Nat)]).find_callback "f" 1
      = some (ccOfSum (Sum.inl 3)) :=
  ⟨(claim_C1_last_write_wins _ "f" 1).1 Bytecode.Op.Upper (by decide),
   (claim_C1_last_write_wins _ "f" 1).2 (Sum.inl 3) (by decide)⟩

/-- C2: For a key that never saw any registration, `find_builtin` returns the `Nop`
sentinel and `find_callback` returns an Empty variant; both lookups are total, so
neither can fail. -/
theorem claim_C2_unregistered_key_is_sentinel {V S : Type} (h : List (RegOp V S))
    (name : String) (n : Nat)
    (hh : ∀ e ∈ h, ¬(e.name = name ∧ e.arity = n)) :
    (runOps FunctionStorage.empty h).find_builtin name n = Bytecode.Op.Nop
    ∧ (runOps FunctionStorage.empty h).find_callback name n
        = some CallbackContainer.mkEmpty := by
  constructor
  · rw [find_builtin_runOps,
      lastRegisteredBuiltin_eq_none name n h (fun e he _ => hh e he)]
    rfl
  · rw [find_callback_eq_copy, storedFunction_runOps,
      lastRegisteredCallback_eq_none name n h (fun e he _ => hh e he)]
    rfl

/-- Witness for C2: registrations on other names and other arities leave ("f", 1)
at the sentinels. -/
theorem claim_C2_unregistered_key_is_sentinel_witness :
    (runOps FunctionStorage.empty
        [RegOp.addBuiltin "upper" 1 Bytecode.Op.Upper,
         RegOp.addCallbackValue "f" 2 (3 : Nat),
         RegOp.addCallbackStreaming "g" 1 (5 : Nat)]).find_builtin "f" 1
      = Bytecode.Op.Nop
    ∧ (runOps FunctionStorage.empty
        [RegOp.addBuiltin "upper" 1 Bytecode.Op.Upper,
         RegOp.addCallbackValue "f" 2 (3 : Nat),
         RegOp.addCallbackStreaming "g" 1 (5 : Nat)]).find_callback "f" 1
      = some CallbackContainer.mkEmpty :=
  claim_C2_unregistered_key_is_sentinel _ "f" 1 (by decide)

/-- C3: Field independence within an entry: `add_callback` (either shape) never
changes what `find_builtin` observes at any key, and `add_builtin` never changes
what `find_callback` observes at any key; in particular, after a history whose
events for the key are all `add_builtin`, `find_callback` returns the Empty
variant, and after a history whose events for the key are all `add_callback`,
`find_builtin` returns the `Nop` sentinel. -/
theorem claim_C3_field_independence (V S : Type) :
    (∀ (σ : FunctionStorage V S) (name : String) (n : Nat) (f : V)
        (name2 : String) (n2 : Nat),
        (σ.add_callback_value name n f).find_builtin name2 n2
          = σ.find_builtin name2 n2)
    ∧ (∀ (σ : FunctionStorage V S) (name : String) (n : Nat) (g : S)
        (name2 : String) (n2 : Nat),
        (σ.add_callback_streaming name n g).find_builtin name2 n2
          = σ.find_builtin name2 n2)
    ∧ (∀ (σ : FunctionStorage V S) (name : String) (n : Nat) (op : Bytecode.Op)
        (name2 : String) (n2 : Nat),
        (σ.add_builtin name n op).find_callback name2 n2
          = σ.find_callback name2 n2)
    ∧ (∀ (h : List (RegOp V S)) (name : String) (n : Nat),
        (∀ e ∈ h, e.name = name → e.arity = n → e.isBuiltin = true) →
        (runOps FunctionStorage.empty h).find_callback name n
          = some CallbackContainer.mkEmpty)
    ∧ (∀ (h : List (RegOp V S)) (name : String) (n : Nat),
        (∀ e ∈ h, e.name = name → e.arity = n → e.isBuiltin = false) →
        (runOps FunctionStorage.empty h).find_builtin name n = Bytecode.Op.Nop) := by
  refine ⟨fun σ name n f name2 n2 => find_builtin_add_callback_value σ name n f name2 n2,
    fun σ name n g name2 n2 => find_builtin_add_callback_streaming σ name n g name2 n2,
    fun σ name n op name2 n2 => ?_, fun h name n hh => ?_, fun h name n hh => ?_⟩
  · rw [find_callback_eq_copy, find_callback_eq_copy,
      storedFunction_add_builtin σ name n op name2 n2]
  · rw [find_callback_eq_copy, storedFunction_runOps,
      lastRegisteredCallback_eq_none name n h
        (fun e he hb hkey =>
          Bool.noConfusion ((hh e he hkey.1 hkey.2).symm.trans hb))]
    rfl
  · rw [find_builtin_runOps,
      lastRegisteredBuiltin_eq_none name n h
        (fun e he hb hkey =>
          Bool.noConfusion ((hh e he hkey.1 hkey.2).symm.trans hb))]
    rfl

/-- Witness for C3: an `add_builtin`-only history leaves the callback Empty, and an
`add_callback`-only history leaves the opcode at `Nop`. -/
theorem claim_C3_field_independence_witness :
    (runOps FunctionStorage.empty
        [RegOp.addBuiltin "f" 1 Bytecode.Op.Upper,
         RegOp.addBuiltin "f" 1 (Bytecode.Op.Other 4)]
      : FunctionStorage Nat Nat).find_callback "f" 1
      = some CallbackContainer.mkEmpty
    ∧ (runOps FunctionStorage.empty
        [RegOp.addCallbackValue "f" 1 (3 : Nat),
         RegOp.addCallbackStreaming "f" 1 (5 : Nat)]).find_builtin "f" 1
      = Bytecode.Op.Nop :=
  ⟨(claim_C3_field_independence Nat Nat).2.2.2.1 _ "f" 1 (by decide),
   (claim_C3_field_independence Nat Nat).2.2.2.2 _ "f" 1 (by decide)⟩

/-- C4: evaluation of the code at the failing input.  Move-assigning (and hence
copy-assigning) a default-constructed Empty container onto a container holding a
value callback runs the `Type::_` switch branch, which sets the tag to the empty
tag but writes nothing to the union: the old value payload is still the live
member, so the produced container's tag does not describe its live payload. -/
theorem claim_C4_assign_empty_breaks_consistency :
    (CallbackContainer.ofValue 7 : CallbackContainer Nat Nat).moveAssign
        CallbackContainer.mkEmpty
      = some ⟨CType.uninit, Callback.value 7⟩
    ∧ (CallbackContainer.ofValue 7 : CallbackContainer Nat Nat).copyAssign
        CallbackContainer.mkEmpty
      = some ⟨CType.uninit, Callback.value 7⟩
    ∧ (⟨CType.uninit, Callback.value 7⟩ : CallbackContainer Nat Nat).consistentb
      = false :=
  ⟨rfl, rfl, rfl⟩

/-- C5: Uniqueness by arity: every registry state reachable from a fresh registry
by registrations keeps the entries of each name's list pairwise distinct in
`num_args`. -/
theorem claim_C5_unique_arity_invariant {V S : Type} (h : List (RegOp V S)) :
    arityUnique (runOps FunctionStorage.empty h) :=
  arityUnique_runOps h FunctionStorage.empty
    (fun p hp => absurd hp (List.not_mem_nil p))

/-- Witness for C5 at a concrete mixed history. -/
theorem claim_C5_unique_arity_invariant_witness :
    arityUnique (runOps FunctionStorage.empty
      [RegOp.addBuiltin "f" 1 Bytecode.Op.Upper,
       RegOp.addCallbackValue "f" 2 (3 : Nat),
       RegOp.addCallbackStreaming "f" 1 (5 : Nat)]) :=
  claim_C5_unique_arity_invariant _

/-- C6: `add_builtin` is idempotent — repeating a call with identical arguments
leaves the whole registry state unchanged — and calling again with a different
opcode for the same key overwrites the stored opcode. -/
theorem claim_C6_add_builtin_idempotent_overwrite {V S : Type}
    (σ : FunctionStorage V S) (name : String) (n : Nat) (op op2 : Bytecode.Op) :
    (σ.add_builtin name n op).add_builtin name n op = σ.add_builtin name n op
    ∧ ((σ.add_builtin name n op).add_builtin name n op2).find_builtin name n
        = op2 := by
  constructor
  · unfold FunctionStorage.add_builtin
    rw [FunctionStorage.mk.injEq]
    rw [updateMap_updateMap name n (fun d => { d with op := op })
      (fun d => { d with op := op }) (fun d => rfl) σ.m_map]
  · exact find_builtin_add_builtin_self (σ.add_builtin name n op) name n op2

/-- C7: Arity separation: a registration under (name, a2) leaves both lookups at
(name, a1) unchanged whenever a1 and a2 differ. -/
theorem claim_C7_arity_separation {V S : Type} (σ : FunctionStorage V S)
    (name : String) (a1 a2 : Nat) (hne : a1 ≠ a2) (e : RegOp V S)
    (_hname : e.name = name) (hearity : e.arity = a2) :
    (applyOp σ e).find_builtin name a1 = σ.find_builtin name a1
    ∧ (applyOp σ e).find_callback name a1 = σ.find_callback name a1 := by
  have hor : e.name ≠ name ∨ e.arity ≠ a1 := Or.inr (by rw [hearity]; exact Ne.symm hne)
  constructor
  · exact find_builtin_applyOp_ne σ e name a1 hor
  · rw [find_callback_eq_copy, find_callback_eq_copy,
      storedFunction_applyOp_ne σ e name a1 hor]

/-- Witness for C7: a callback registration at ("f", 2) does not disturb the
builtin registered at ("f", 1). -/
theorem claim_C7_arity_separation_witness :
    (applyOp (runOps FunctionStorage.empty [RegOp.addBuiltin "f" 1 Bytecode.Op.Upper]
          : FunctionStorage Nat Nat)
        (RegOp.addCallbackValue "f" 2 (3 : Nat))).find_builtin "f" 1
      = (runOps FunctionStorage.empty [RegOp.addBuiltin "f" 1 Bytecode.Op.Upper]
          : FunctionStorage Nat Nat).find_builtin "f" 1
    ∧ (applyOp (runOps FunctionStorage.empty [RegOp.addBuiltin "f" 1 Bytecode.Op.Upper]
          : FunctionStorage Nat Nat)
        (RegOp.addCallbackValue "f" 2 (3 : Nat))).find_callback "f" 1
      = (runOps FunctionStorage.empty [RegOp.addBuiltin "f" 1 Bytecode.Op.Upper]
          : FunctionStorage Nat Nat).find_callback "f" 1 :=
  claim_C7_arity_separation _ "f" 1 2 (by decide) _ rfl rfl

/-- C8: Registering a streaming callback under ("join", 2) in a fresh registry
makes `find_callback` return a variant that tests true, whose tag is `STREAMING`
(the shape chosen by the constructor overload, not by a parameter), while
`find_builtin` still returns `Nop`; and the boolean test of any variant is true
exactly when its tag is not the empty tag. -/
theorem claim_C8_streaming_scenario (V S : Type) (g : S) :
    (FunctionStorage.empty.add_callback_streaming "join" 2 g
        : FunctionStorage V S).find_callback "join" 2
      = some (CallbackContainer.ofStreaming g)
    ∧ (CallbackContainer.ofStreaming g : CallbackContainer V S).is_set = true
    ∧ (CallbackContainer.ofStreaming g : CallbackContainer V S).type
        = CType.STREAMING
    ∧ (FunctionStorage.empty.add_callback_streaming "join" 2 g
        : FunctionStorage V S).find_builtin "join" 2 = Bytecode.Op.Nop
    ∧ ∀ c : CallbackContainer V S, c.is_set = true ↔ c.type ≠ CType.uninit := by
  refine ⟨?_, rfl, rfl, ?_, ?_⟩
  · rw [find_callback_eq_copy,
      storedFunction_add_callback_streaming_self FunctionStorage.empty "join" 2 g]
    rfl
  · rw [find_builtin_add_callback_streaming FunctionStorage.empty "join" 2 g "join" 2]
    rfl
  · intro c
    obtain ⟨t, cb⟩ := c
    cases t <;> simp [CallbackContainer.is_set]

/-- C9: Copy independence: a populated variant returned by `find_callback` is a
copy — copying it again reproduces the same tag and payload — and a subsequent
re-registration on the owning entry changes only what later lookups return, the
new lookup yielding the newly installed callable while the earlier returned value
is a value the registry mutation cannot reach. -/
theorem claim_C9_copy_independence {V S : Type} (σ : FunctionStorage V S)
    (name : String) (n : Nat) (c : CallbackContainer V S) (f : V)
    (hc : σ.find_callback name n = some c) :
    c.copy = some c
    ∧ (σ.add_callback_value name n f).find_callback name n
        = some (CallbackContainer.ofValue f) := by
  constructor
  · unfold FunctionStorage.find_callback at hc
    cases hg : σ.get name n with
    | none =>
        rw [hg] at hc
        injection hc with hc
        rw [← hc]
        rfl
    | some d =>
        rw [hg] at hc
        exact copy_of_copy d.function c hc
  · rw [find_callback_eq_copy,
      storedFunction_add_callback_value_self σ name n f]
    rfl

/-- Witness for C9: the copy returned before the re-registration stays intact while
the new lookup sees the new callback. -/
theorem claim_C9_copy_independence_witness :
    (CallbackContainer.ofValue 3 : CallbackContainer Nat Nat).copy
      = some (CallbackContainer.ofValue 3)
    ∧ ((runOps FunctionStorage.empty [RegOp.addCallbackValue "f" 1 (3 : Nat)]
          : FunctionStorage Nat Nat).add_callback_value "f" 1 9).find_callback "f" 1
      = some (CallbackContainer.ofValue 9) :=
  claim_C9_copy_independence _ "f" 1 (CallbackContainer.ofValue 3) 9 (by decide)

/-- C10: Lookups are pure: the statement-level embeddings of `find_builtin` and
`find_callback`, which thread the registry state through every step of `get`,
return the registry exactly as it was — absent keys included, no entry is ever
created — and compute the same results as the direct lookups. -/
theorem claim_C10_lookups_leave_registry_unchanged {V S : Type}
    (σ : FunctionStorage V S) (name : String) (n : Nat) :
    (σ.find_builtin_st name n).2 = σ
    ∧ (σ.find_callback_st name n).2 = σ
    ∧ (σ.find_builtin_st name n).1 = σ.find_builtin name n
    ∧ (σ.find_callback_st name n).1 = σ.find_callback name n := by
  cases hm : mapFind σ.m_map name with
  | none =>
      simp [FunctionStorage.find_builtin_st, FunctionStorage.find_callback_st,
        FunctionStorage.get_st, FunctionStorage.find_builtin,
        FunctionStorage.find_callback, FunctionStorage.get, hm]
  | some vec =>
      cases hv : findArity n vec with
      | none =>
          simp [FunctionStorage.find_builtin_st, FunctionStorage.find_callback_st,
            FunctionStorage.get_st, FunctionStorage.find_builtin,
            FunctionStorage.find_callback, FunctionStorage.get, hm, hv]
      | some d =>
          simp [FunctionStorage.find_builtin_st, FunctionStorage.find_callback_st,
            FunctionStorage.get_st, FunctionStorage.find_builtin,
            FunctionStorage.find_callback, FunctionStorage.get, hm, hv]

end Inja
